import Mathlib

/-!
Verification of the clint crate core: closure-based interrupt handler slots
(`src/handler.rs`), the fixed-capacity handler array with scoped overrides
(`src/array.rs`), and the pass-through critical section (`src/cs/dummy.rs`).

Modelling conventions of the shallow embedding:
* A stored callable (`&mut dyn FnMut()` in the source) is modelled as a code
  of type `ι`; an interpretation `env : ι → σ → σ` maps each code to the
  effect the callable has on its captured environment state `σ`.
* A Rust panic (index out of bounds on array access) is modelled by returning
  `none` from the operation; a normally returned value is `some`.
* Unwinding of an override-scope body is modelled by the `BodyResult.panicked`
  outcome, which carries the table and state the body left behind.
-/

namespace Clint

/-- Model of `Handler` (src/handler.rs, non-const-fn variant): a cell holding
`Option<NonNull<dyn FnMut() + 'a>>`, i.e. an optional reference to a callable. -/
structure Handler (ι : Type) where
  h : Option ι
deriving DecidableEq, Repr

/-- `Handler::new`: the cell starts holding `None` (the no-op state). -/
def Handler.new {ι : Type} : Handler ι := ⟨none⟩

/-- `Handler::replace`: unconditionally store the new reference
(`*self.h.get() = Some(NonNull::new_unchecked(f))`). -/
def Handler.replace {ι : Type} (_x : Handler ι) (f : ι) : Handler ι := ⟨some f⟩

/-- `Handler::call`: `h.map(|mut f| (f.as_mut())())` — if a callable is
installed, run it on the captured state; otherwise do nothing. -/
def Handler.call {ι σ : Type} (x : Handler ι) (env : ι → σ → σ) (s : σ) : σ :=
  match x.h with
  | none => s
  | some f => env f s

/-- `Handler::default_handler`: `pub fn default_handler() {}` — the provided
do-nothing callable, as an effect on the captured state. -/
def Handler.default_handler {σ : Type} : σ → σ := fun s => s

/-- Model of the `CriticalSection` trait (src/cs/mod.rs): one operation,
`with_lock`, executing a block and returning its result. -/
structure CriticalSection where
  with_lock : ∀ {R : Type}, (Unit → R) → R

/-- The pass-through `Locker` of src/cs/dummy.rs: `with_lock(f) = f()`. -/
def Locker : CriticalSection := ⟨fun f => f ()⟩

/-- The capacity selected by the default Cargo feature (`isr-32`). The model
keeps the capacity as a parameter `n`; the source fixes it at build time to a
value from {8, 16, 32, 64, 128, 256}. -/
def NR_ISR : Nat := 32

/-- Model of `HandlerArray` (src/array.rs): `h: UnsafeCell<[Handler<'a>; NR_ISR]>`. -/
structure HandlerArray (ι : Type) where
  h : List (Handler ι)
deriving DecidableEq, Repr

/-- `HandlerArray::new`: an array of `n` no-op handlers. -/
def HandlerArray.new (ι : Type) (n : Nat) : HandlerArray ι :=
  ⟨List.replicate n Handler.new⟩

/-- The body of the closure passed to `cs.with_lock` in `lock_register`:
`(*self.h.get())[nr].replace(f)`. Indexing with `nr` out of bounds panics
(`none`); otherwise the entry is replaced. -/
def HandlerArray.install {ι : Type} (arr : HandlerArray ι) (nr : Nat) (f : ι) :
    Option (HandlerArray ι) :=
  (arr.h[nr]?).map fun x => ⟨arr.h.set nr (x.replace f)⟩

/-- `HandlerArray::lock_register`: `cs.with_lock(|| ...[nr].replace(f))`. -/
def HandlerArray.lock_register {ι : Type} (arr : HandlerArray ι)
    (cs : CriticalSection) (nr : Nat) (f : ι) : Option (HandlerArray ι) :=
  cs.with_lock fun _ => arr.install nr f

/-- `HandlerArray::register`: `self.lock_register(&Locker::new(), nr, f)`. -/
def HandlerArray.register {ι : Type} (arr : HandlerArray ι) (nr : Nat) (f : ι) :
    Option (HandlerArray ι) :=
  arr.lock_register Locker nr f

/-- `HandlerArray::call`: `(*self.h.get())[nr].call()` — panics (`none`) when
`nr` is out of bounds, otherwise invokes the entry. -/
def HandlerArray.call {ι σ : Type} (arr : HandlerArray ι) (nr : Nat)
    (env : ι → σ → σ) (s : σ) : Option σ :=
  (arr.h[nr]?).map fun x => x.call env s

/-- Iterated invocation: perform `call nr` a total of `k` times, threading the
captured state; a panic at any step propagates. -/
def HandlerArray.callN {ι σ : Type} (arr : HandlerArray ι) (nr : Nat)
    (env : ι → σ → σ) : σ → Nat → Option σ
  | s, 0 => some s
  | s, k + 1 => (arr.call nr env s).bind fun s2 => arr.callN nr env s2 k

/-- Outcome of an override-scope body: either it returns normally, or it
terminates by unwinding; both cases carry the table content and the captured
state at the moment the body terminated. -/
inductive BodyResult (ι σ : Type) where
  | normal (arr : HandlerArray ι) (s : σ)
  | panicked (arr : HandlerArray ι) (s : σ)
deriving DecidableEq, Repr

/-- The table content an override scope leaves behind, whichever way it ends. -/
def BodyResult.table {ι σ : Type} : BodyResult ι σ → HandlerArray ι
  | .normal a _ => a
  | .panicked a _ => a

/-- `HandlerArray::lock_overrides`: back up the whole table
(`ptr::copy_nonoverlapping(tmp.h.get(), bk.h.get(), 1)`), run `f(tmp)`, and —
only when `f` returns normally — restore the backup inside `cs.with_lock`.
When `f` unwinds, control leaves `lock_overrides` before the restore
statement runs (the source installs no unwind guard), so the table stays as
the body left it. -/
def HandlerArray.lock_overrides {ι σ : Type} (arr : HandlerArray ι)
    (cs : CriticalSection) (f : HandlerArray ι → σ → BodyResult ι σ) (s : σ) :
    BodyResult ι σ :=
  let bk := arr
  match f arr s with
  | .normal _ s2 => .normal (cs.with_lock fun _ => bk) s2
  | .panicked arr2 s2 => .panicked arr2 s2

/-- `HandlerArray::with_overrides`: `self.lock_overrides(&Locker::new(), f)`. -/
def HandlerArray.with_overrides {ι σ : Type} (arr : HandlerArray ι)
    (f : HandlerArray ι → σ → BodyResult ι σ) (s : σ) : BodyResult ι σ :=
  arr.lock_overrides Locker f s

/-- A block instrumented to count its own executions: running it bumps the
counter component by one and otherwise behaves as `blk`. -/
def instrument {ω R : Type} (blk : ω → R × ω) : Nat × ω → R × (Nat × ω) :=
  fun p => ((blk p.2).1, (p.1 + 1, (blk p.2).2))

/-- The public operations available on a single handler slot after creation:
`replace` and `call` (src/handler.rs has no operation that clears the cell). -/
inductive HOp (ι : Type) where
  | replace (f : ι)
  | call

/-- Effect of one public slot operation on the stored reference: `replace`
stores the new reference; `call` reads the cell but never writes it. -/
def Handler.applyOp {ι : Type} (x : Handler ι) : HOp ι → Handler ι
  | .replace f => x.replace f
  | .call => x

/-- Effect of a sequence of public slot operations on the stored reference. -/
def Handler.applyOps {ι : Type} (x : Handler ι) : List (HOp ι) → Handler ι
  | [] => x
  | op :: ops => (x.applyOp op).applyOps ops

end Clint

namespace Clint

/- Shared helper lemmas. -/

/-- An override scope whose body returns normally ends with the backup written
back, i.e. with the table exactly as it was at scope entry. -/
theorem with_overrides_normal_eq {ι σ : Type} (arr a2 : HandlerArray ι)
    (body : HandlerArray ι → σ → BodyResult ι σ) (s s2 : σ)
    (hbody : body arr s = BodyResult.normal a2 s2) :
    arr.with_overrides body s = BodyResult.normal arr s2 := by
  simp [HandlerArray.with_overrides, HandlerArray.lock_overrides, hbody, Locker]

/-- An override scope whose body unwinds propagates the unwinding without
running the restore statement: the table stays as the body left it. -/
theorem with_overrides_panicked_eq {ι σ : Type} (arr a2 : HandlerArray ι)
    (body : HandlerArray ι → σ → BodyResult ι σ) (s s2 : σ)
    (hbody : body arr s = BodyResult.panicked a2 s2) :
    arr.with_overrides body s = BodyResult.panicked a2 s2 := by
  simp [HandlerArray.with_overrides, HandlerArray.lock_overrides, hbody, Locker]

/-- A successful registration means the index was in range and exactly that
entry was overwritten with the new reference. -/
theorem register_some_elim {ι : Type} (arr arr2 : HandlerArray ι) (i : Nat) (c : ι)
    (hreg : arr.register i c = some arr2) :
    ∃ x, arr.h[i]? = some x ∧ arr2 = ⟨arr.h.set i (x.replace c)⟩ := by
  have h : Option.map (fun x => (⟨arr.h.set i (x.replace c)⟩ : HandlerArray ι)) arr.h[i]? =
      some arr2 := hreg
  rw [Option.map_eq_some'] at h
  obtain ⟨x, hx, hx2⟩ := h
  exact ⟨x, hx, hx2.symm⟩

/-- A sequence of public slot operations applied to an occupied slot leaves it
occupied: `replace` stores a reference and `call` does not write the cell. -/
theorem applyOps_occupied {ι : Type} (ops : List (HOp ι)) :
    ∀ g0 : ι, ∃ g : ι, Handler.applyOps ⟨some g0⟩ ops = ⟨some g⟩ := by
  induction ops with
  | nil => exact fun g0 => ⟨g0, rfl⟩
  | cons op ops ih =>
    intro g0
    cases op with
    | replace f => exact ih f
    | call => exact ih g0

end Clint

namespace Clint

/- Claim theorems. -/

/-- C1: for every table state and every body that performs arbitrary
registrations and returns normally, `with_overrides body` leaves the table
observably equal to its state at scope entry, and every subsequent `call i`
behaves exactly as it would have before the scope was entered. -/
theorem with_overrides_restores {ι σ : Type} (arr arr2 : HandlerArray ι)
    (body : HandlerArray ι → σ → BodyResult ι σ) (s s2 : σ)
    (env : ι → σ → σ) (i : Nat) (t : σ)
    (hbody : body arr s = BodyResult.normal arr2 s2) :
    arr.with_overrides body s = BodyResult.normal arr s2 ∧
      (arr.with_overrides body s).table.call i env t = arr.call i env t := by
  have h1 := with_overrides_normal_eq arr arr2 body s s2 hbody
  refine ⟨h1, ?_⟩
  rw [h1]
  rfl

/-- C1 witness: a capacity-8 table, a body that registers callable code 7 at
entry 0 and returns normally; the scope exits with the original all-no-op
table, and `call 0` afterward behaves as before the scope. -/
theorem with_overrides_restores_witness :
    ((fun (t : HandlerArray ℕ) (u : ℕ) =>
        BodyResult.normal ((t.install 0 7).getD t) u) (HandlerArray.new ℕ 8) 0 =
      BodyResult.normal (((HandlerArray.new ℕ 8).install 0 7).getD (HandlerArray.new ℕ 8)) 0) ∧
    (HandlerArray.new ℕ 8).with_overrides
        (fun t u => BodyResult.normal ((t.install 0 7).getD t) u) 0 =
      BodyResult.normal (HandlerArray.new ℕ 8) 0 ∧
    ((HandlerArray.new ℕ 8).with_overrides
        (fun t u => BodyResult.normal ((t.install 0 7).getD t) u) 0).table.call 0
        (fun c t => t + c) 0 =
      (HandlerArray.new ℕ 8).call 0 (fun c t => t + c) 0 :=
  ⟨rfl,
    (with_overrides_restores (HandlerArray.new ℕ 8)
      (((HandlerArray.new ℕ 8).install 0 7).getD (HandlerArray.new ℕ 8)) _ 0 0
      (fun c t => t + c) 0 0 rfl).1,
    (with_overrides_restores (HandlerArray.new ℕ 8)
      (((HandlerArray.new ℕ 8).install 0 7).getD (HandlerArray.new ℕ 8)) _ 0 0
      (fun c t => t + c) 0 0 rfl).2⟩

/-- C2 counterexample: the claim that the snapshot is restored on every exit
path fails on the code. A body that registers callable code 7 at entry 0 and
then unwinds leaves the table with the override still installed, not equal to
the pre-scope table: `lock_overrides` only reaches its restore statement when
the body returns normally. -/
theorem overrides_unwind_skips_restore_cex :
    ((HandlerArray.new ℕ 8).with_overrides
        (fun (t : HandlerArray ℕ) (u : ℕ) => BodyResult.panicked ((t.install 0 7).getD t) u)
        0).table ≠ HandlerArray.new ℕ 8 := by
  decide

/-- C2 (amended): the snapshot taken at scope entry is restored when the body
returns normally; when the body terminates by unwinding, the scope propagates
the unwinding and the restore step is skipped, leaving the table exactly as
the body left it. -/
theorem with_overrides_panicked_skips_restore {ι σ : Type}
    (arr arr2 : HandlerArray ι) (body : HandlerArray ι → σ → BodyResult ι σ)
    (s s2 : σ) (hbody : body arr s = BodyResult.panicked arr2 s2) :
    arr.with_overrides body s = BodyResult.panicked arr2 s2 :=
  with_overrides_panicked_eq arr arr2 body s s2 hbody

/-- C2 witness: the unwinding body of the counterexample, evaluated through
the amended statement. -/
theorem with_overrides_panicked_skips_restore_witness :
    ((fun (t : HandlerArray ℕ) (u : ℕ) =>
        BodyResult.panicked ((t.install 0 7).getD t) u) (HandlerArray.new ℕ 8) 0 =
      BodyResult.panicked (((HandlerArray.new ℕ 8).install 0 7).getD (HandlerArray.new ℕ 8)) 0) ∧
    (HandlerArray.new ℕ 8).with_overrides
        (fun t u => BodyResult.panicked ((t.install 0 7).getD t) u) 0 =
      BodyResult.panicked (((HandlerArray.new ℕ 8).install 0 7).getD (HandlerArray.new ℕ 8)) 0 :=
  ⟨rfl,
    with_overrides_panicked_skips_restore (HandlerArray.new ℕ 8)
      (((HandlerArray.new ℕ 8).install 0 7).getD (HandlerArray.new ℕ 8)) _ 0 0 rfl⟩

/-- C4: on a freshly constructed table of capacity `n` with no registrations,
`call i` for in-range `i` returns normally and leaves the captured state
unchanged: the empty slot takes the built-in no-op branch. -/
theorem fresh_table_call_is_noop {ι σ : Type} (n i : Nat) (env : ι → σ → σ)
    (s : σ) (hlt : i < n) :
    (HandlerArray.new ι n).call i env s = some s := by
  have hget : (List.replicate n (Handler.new (ι := ι)))[i]? = some Handler.new := by
    rw [List.getElem?_eq_getElem (by simpa using hlt)]
    simp
  show ((List.replicate n (Handler.new (ι := ι)))[i]?).map (fun x => x.call env s) = some s
  rw [hget]
  rfl

/-- C4 witness: capacity 8, entry 3, a counter environment; the counter stays
at 0. -/
theorem fresh_table_call_is_noop_witness :
    3 < 8 ∧ (HandlerArray.new ℕ 8).call 3 (fun c t => t + c) 0 = some 0 :=
  ⟨by decide, fresh_table_call_is_noop 8 3 (fun c t => t + c) 0 (by decide)⟩

end Clint

namespace Clint

/-- C3: for a table of capacity `N` and any index `nr ≥ N`, `register`,
`lock_register` with the default locker, and `call` all panic
(the out-of-bounds array access, modelled as `none`): none of them returns
normally with the table silently unchanged. -/
theorem out_of_range_register_call_panics {ι σ : Type} (arr : HandlerArray ι)
    (nr : Nat) (f : ι) (env : ι → σ → σ) (s : σ) (hge : arr.h.length ≤ nr) :
    arr.register nr f = none ∧ arr.lock_register Locker nr f = none ∧
      arr.call nr env s = none := by
  have hnone : arr.h[nr]? = none := List.getElem?_eq_none hge
  have hinst : arr.install nr f = none := by
    show (arr.h[nr]?).map _ = none
    rw [hnone]
    rfl
  have hcall : arr.call nr env s = none := by
    show (arr.h[nr]?).map _ = none
    rw [hnone]
    rfl
  exact ⟨hinst, hinst, hcall⟩

/-- C3 witness: a capacity-8 table; `register 8`, `lock_register Locker 8`
and `call 8` all panic. -/
theorem out_of_range_register_call_panics_witness :
    (HandlerArray.new ℕ 8).h.length ≤ 8 ∧
      ((HandlerArray.new ℕ 8).register 8 5 = none ∧
        (HandlerArray.new ℕ 8).lock_register Locker 8 5 = none ∧
        (HandlerArray.new ℕ 8).call 8 (fun c t => t + c) 0 = none) :=
  ⟨by decide,
    out_of_range_register_call_panics (HandlerArray.new ℕ 8) 8 5
      (fun c t => t + c) 0 (by decide)⟩

/-- C5: after a successful `register i c`, invoking `call i` a total of `k`
times executes the effect of the installed callable exactly `k` times on the
captured state — one execution per invocation, none skipped, none repeated. -/
theorem register_then_callN_iterates {ι σ : Type} (arr arr2 : HandlerArray ι)
    (i : Nat) (c : ι) (env : ι → σ → σ) (hreg : arr.register i c = some arr2)
    (s : σ) (k : Nat) :
    arr2.callN i env s k = some ((env c)^[k] s) := by
  obtain ⟨x, hx, harr2⟩ := register_some_elim arr arr2 i c hreg
  have hlt : i < arr.h.length := by
    by_contra hge
    rw [List.getElem?_eq_none (Nat.le_of_not_lt hge)] at hx
    exact Option.noConfusion hx
  have hget : arr2.h[i]? = some (x.replace c) := by
    rw [harr2]
    exact List.getElem?_set_eq_of_lt _ (by simpa using hlt)
  have hcall : ∀ t : σ, arr2.call i env t = some (env c t) := by
    intro t
    show (arr2.h[i]?).map (fun y => y.call env t) = some (env c t)
    rw [hget]
    rfl
  induction k generalizing s with
  | zero => rfl
  | succ k ih =>
    show (arr2.call i env s).bind (fun s2 => arr2.callN i env s2 k) = _
    rw [hcall s, Option.some_bind, ih, Function.iterate_succ_apply]

/-- C5 witness: register callable code 4 (interpreted as adding 4) at entry 0
of a capacity-8 table and call it three times starting from 0. -/
theorem register_then_callN_iterates_witness :
    (HandlerArray.new ℕ 8).register 0 4 =
        some (((HandlerArray.new ℕ 8).register 0 4).getD (HandlerArray.new ℕ 8)) ∧
      (((HandlerArray.new ℕ 8).register 0 4).getD (HandlerArray.new ℕ 8)).callN 0
          (fun c t => t + c) 0 3 =
        some (((fun (c : ℕ) (t : ℕ) => t + c) 4)^[3] 0) :=
  ⟨by decide,
    register_then_callN_iterates (HandlerArray.new ℕ 8)
      (((HandlerArray.new ℕ 8).register 0 4).getD (HandlerArray.new ℕ 8)) 0 4
      (fun c t => t + c) (by decide) 0 3⟩

/-- C6: registration and invocation are entry-local: a successful
`register i c` leaves every entry `j ≠ i` bit-for-bit unchanged, and `call j`
afterward behaves exactly as it did before the registration — it never runs
the newly installed callable. -/
theorem register_is_entry_local {ι σ : Type} (arr arr2 : HandlerArray ι)
    (i j : Nat) (c : ι) (env : ι → σ → σ) (s : σ)
    (hreg : arr.register i c = some arr2) (hne : j ≠ i) :
    arr2.h[j]? = arr.h[j]? ∧ arr2.call j env s = arr.call j env s := by
  obtain ⟨x, _hx, harr2⟩ := register_some_elim arr arr2 i c hreg
  have hj : arr2.h[j]? = arr.h[j]? := by
    rw [harr2]
    exact List.getElem?_set_ne (fun h => hne h.symm)
  refine ⟨hj, ?_⟩
  show (arr2.h[j]?).map (fun y => y.call env s) = (arr.h[j]?).map (fun y => y.call env s)
  rw [hj]

/-- C6 witness: register at entry 0 of a capacity-8 table; entry 1 is
unchanged and calling it leaves the counter at 0. -/
theorem register_is_entry_local_witness :
    (HandlerArray.new ℕ 8).register 0 4 =
        some (((HandlerArray.new ℕ 8).register 0 4).getD (HandlerArray.new ℕ 8)) ∧
      (1 : ℕ) ≠ 0 ∧
      ((((HandlerArray.new ℕ 8).register 0 4).getD (HandlerArray.new ℕ 8)).h[1]? =
          (HandlerArray.new ℕ 8).h[1]? ∧
        (((HandlerArray.new ℕ 8).register 0 4).getD (HandlerArray.new ℕ 8)).call 1
            (fun c t => t + c) 0 =
          (HandlerArray.new ℕ 8).call 1 (fun c t => t + c) 0) :=
  ⟨by decide, by decide,
    register_is_entry_local (HandlerArray.new ℕ 8)
      (((HandlerArray.new ℕ 8).register 0 4).getD (HandlerArray.new ℕ 8)) 0 1 4
      (fun c t => t + c) 0 (by decide) (by decide)⟩

/-- C7: nested override scopes restore in LIFO order: with outer overrides
applied by `outerMod` and an inner scope running `inner`, the inner scope
exits restoring the table to its inner-entry state `outerMod arr` (outer
overrides still installed), and the outer scope then exits restoring the
original table `arr`. -/
theorem nested_overrides_restore_lifo {ι σ : Type} (arr : HandlerArray ι)
    (outerMod : HandlerArray ι → HandlerArray ι)
    (inner : HandlerArray ι → σ → BodyResult ι σ) (s : σ)
    (u2 : HandlerArray ι) (s2 : σ)
    (hinner : inner (outerMod arr) s = BodyResult.normal u2 s2) :
    (outerMod arr).with_overrides inner s = BodyResult.normal (outerMod arr) s2 ∧
      arr.with_overrides (fun t u => (outerMod t).with_overrides inner u) s =
        BodyResult.normal arr s2 := by
  have h1 := with_overrides_normal_eq (outerMod arr) u2 inner s s2 hinner
  exact ⟨h1, with_overrides_normal_eq arr (outerMod arr)
    (fun t u => (outerMod t).with_overrides inner u) s s2 h1⟩

/-- C7 witness: outer scope installs code 5 at entry 0, inner scope installs
code 7 at entry 0 and returns; the inner exit restores the table with code 5
installed, the outer exit restores the all-no-op table. -/
theorem nested_overrides_restore_lifo_witness :
    ((fun (t : HandlerArray ℕ) (u : ℕ) => BodyResult.normal ((t.install 0 7).getD t) u)
        (((HandlerArray.new ℕ 8).install 0 5).getD (HandlerArray.new ℕ 8)) 0 =
      BodyResult.normal
        (((((HandlerArray.new ℕ 8).install 0 5).getD (HandlerArray.new ℕ 8)).install 0
            7).getD (((HandlerArray.new ℕ 8).install 0 5).getD (HandlerArray.new ℕ 8))) 0) ∧
    ((((HandlerArray.new ℕ 8).install 0 5).getD (HandlerArray.new ℕ 8)).with_overrides
        (fun t u => BodyResult.normal ((t.install 0 7).getD t) u) 0 =
      BodyResult.normal (((HandlerArray.new ℕ 8).install 0 5).getD (HandlerArray.new ℕ 8)) 0 ∧
      (HandlerArray.new ℕ 8).with_overrides
          (fun t u =>
            ((t.install 0 5).getD t).with_overrides
              (fun t2 u2 => BodyResult.normal ((t2.install 0 7).getD t2) u2) u) 0 =
        BodyResult.normal (HandlerArray.new ℕ 8) 0) :=
  ⟨by decide,
    nested_overrides_restore_lifo (HandlerArray.new ℕ 8) (fun t => (t.install 0 5).getD t)
      (fun t2 u2 => BodyResult.normal ((t2.install 0 7).getD t2) u2) 0
      (((((HandlerArray.new ℕ 8).install 0 5).getD (HandlerArray.new ℕ 8)).install 0
          7).getD (((HandlerArray.new ℕ 8).install 0 5).getD (HandlerArray.new ℕ 8))) 0
      (by decide)⟩

/-- C8: `register` is exactly `lock_register` with the default locker, which
is exactly one `with_lock` call around the single-entry install at the given
index: all three paths produce the same resulting table (or the same panic). -/
theorem register_eq_locked_install {ι : Type} (arr : HandlerArray ι)
    (nr : Nat) (f : ι) :
    arr.register nr f = arr.lock_register Locker nr f ∧
      arr.lock_register Locker nr f = Locker.with_lock (fun _ => arr.install nr f) ∧
      Locker.with_lock (fun _ => arr.install nr f) = arr.install nr f :=
  ⟨rfl, rfl, rfl⟩

/-- C9: the pass-through critical section executes its block exactly once —
a block instrumented to count its own executions is run with the count bumped
by exactly one — and its result and its effect on the rest of the state are
returned unchanged. -/
theorem locker_with_lock_pass_through {ω R : Type} (blk : ω → R × ω)
    (n : Nat) (w : ω) :
    Locker.with_lock (fun _ => instrument blk (n, w)) =
      ((blk w).1, (n + 1, (blk w).2)) :=
  rfl

/-- C10: once a callable is installed in a slot, no sequence of public slot
operations ever returns the cell to the never-installed state: after the
first `replace`, the slot always holds some reference `g` and every `call`
dispatches to it (restoring no-op behavior requires installing the provided
do-nothing callable, it cannot happen by clearing). -/
theorem slot_never_empties_after_replace {ι σ : Type} (x : Handler ι) (f : ι)
    (ops : List (HOp ι)) :
    ∃ g : ι, (x.replace f).applyOps ops = ⟨some g⟩ ∧
      ∀ (env : ι → σ → σ) (s : σ), ((x.replace f).applyOps ops).call env s = env g s := by
  obtain ⟨g, hg⟩ := applyOps_occupied ops f
  have hg2 : (x.replace f).applyOps ops = ⟨some g⟩ := hg
  refine ⟨g, hg2, fun env s => ?_⟩
  rw [hg2]
  rfl

end Clint
